import Mathlib

/-!
Verification of the sparse tabular serialization engine of `linopy`
(`src/linopy/io.py`): the LP text exporter (numeric formatting, masked
string tables, sectioned output) and the binary snapshot codec
(`to_netcdf` / `read_netcdf`).

Floats are embedded as rationals (`ℚ`); a missing value (NaN / null) is
`Option.none`.  `"%+f" % f` is embedded as sign character plus the decimal
rendering of the value rounded to six fractional digits (round half to
even, as C `printf` under round-to-nearest produces on exact decimal
expansions).  `"%d" % d` is embedded as plain decimal integer rendering.
-/

/-! ## Decimal digit rendering -/

def digitChar (d : ℕ) : Char := Char.ofNat (48 + d)

/-- Fuel-driven most-significant-first decimal digit accumulation. -/
def natDigitsAux : ℕ → ℕ → List Char → List Char
  | 0, _, acc => acc
  | fuel + 1, n, acc =>
    if n < 10 then digitChar n :: acc
    else natDigitsAux fuel (n / 10) (digitChar (n % 10) :: acc)

/-- Decimal digits of `n`, most significant first; `0 ↦ ['0']`. -/
def natDigits (n : ℕ) : List Char := natDigitsAux (n + 1) n []

def natStr (n : ℕ) : String := String.mk (natDigits n)

/-- Embedding of C-style `"%d"` on an integer value. -/
def intStr (i : ℤ) : String :=
  if i < 0 then "-" ++ natStr i.natAbs else natStr i.toNat

/-- Left-pad a digit list with zeros to width `k`. -/
def padZeros (k : ℕ) (l : List Char) : List Char :=
  List.replicate (k - l.length) '0' ++ l

/-- Round the fraction `n / d` (with `d > 0`) to the nearest integer,
ties to even, working directly on numerator and denominator. -/
def roundHalfEvenFrac (n d : ℤ) : ℤ :=
  let fl := Int.fdiv n d
  let r2 := 2 * (n - fl * d)
  if r2 < d then fl
  else if d < r2 then fl + 1
  else if fl % 2 = 0 then fl else fl + 1

/-- `to_float_str` (io.py line 19): `"%+f" % f` applied to `da.fillna(0)`,
elementwise on one cell.  Explicit sign, then the magnitude rounded to six
fractional digits (`|q| * 10^6 = |q.num| * 10^6 / q.den` since `q.den > 0`,
and `q < 0 ↔ q.num < 0`). -/
def to_float_str (x : Option ℚ) : String :=
  let q := x.getD 0
  let m := (roundHalfEvenFrac ((q.num.natAbs : ℤ) * 1000000) (q.den : ℤ)).toNat
  (if q.num < 0 then "-" else "+") ++ natStr (m / 1000000) ++ "." ++
    String.mk (padZeros 6 (natDigits (m % 1000000)))

/-- `to_int_str` (io.py line 24): `"%d" % d` applied to `da.fillna(0)`,
elementwise on one cell. -/
def to_int_str (x : Option ℤ) : String := intStr (x.getD 0)

/-! ## String arrays: join, mask, reduction

A component of a string-array join is either a literal constant (broadcast
over all cells) or an array of per-cell strings, mirroring the mixed
`arraylist` argument of `join_str_arrays` (io.py line 29). -/

inductive StrArr where
  | const : String → StrArr
  | arr : List String → StrArr

def StrArr.get : StrArr → ℕ → String
  | .const s, _ => s
  | .arr l, i => l.getD i ("")

/-- `join_str_arrays` (io.py line 29): elementwise left-to-right
concatenation (`reduce(np.add, arraylist, "")`) over a common length. -/
def join_str_arrays (comps : List StrArr) (len : ℕ) : List String :=
  (List.range len).map fun i => comps.foldl (fun acc c => acc ++ c.get i) ""

/-- `.where(mask, "")`: keep a cell where the mask holds, else empty. -/
def whereMask (l : List String) (mask : List Bool) : List String :=
  List.zipWith (fun s b => if b then s else "") l mask

/-- `.notnull()` elementwise. -/
def notnull {α : Type} (l : List (Option α)) : List Bool := l.map Option.isSome

/-- `!= -1` elementwise on a label array; a null label compares unequal
to the sentinel (NaN != -1 is true), so it passes. -/
def neSentinel (l : List (Option ℤ)) : List Bool :=
  l.map fun v => decide (v ≠ some (-1))

/-- Elementwise `&` of two boolean masks. -/
def andMasks (a b : List Bool) : List Bool := List.zipWith and a b

/-! ## The Sparse Tabular Model as seen by the text exporter

`m.objective.coeffs` / `m.objective.vars` are the objective term table;
the constraint tables carry one row per constraint and a term axis
(io.py lines 46-113). -/

structure Objective where
  coeffs : List (Option ℚ)
  vars : List (Option ℤ)

structure Model where
  objective : Objective
  constraints : List (Option ℤ)
  constraints_lhs_coeffs : List (List (Option ℚ))
  constraints_lhs_vars : List (List (Option ℤ))
  constraints_sign : List (Option String)
  constraints_rhs : List (Option ℚ)
  «variables» : List (Option ℤ)
  variables_lower_bound : List (Option ℚ)
  variables_upper_bound : List (Option ℚ)
  non_binary_sel : List Bool
  binaries : List (Option ℤ)

/-! ## Text exporter (io.py lines 46-130) -/

/-- `objective_to_file` body (io.py lines 49-55): the masked string table
of the objective. -/
def objective_str (m : Model) : List String :=
  let coef := m.objective.coeffs
  let var := m.objective.vars
  let nonnans := andMasks (notnull coef) (neSentinel var)
  whereMask
    (join_str_arrays
      [.arr (coef.map to_float_str), .const " x", .arr (var.map to_int_str),
        .const "\n"] coef.length)
    nonnans

/-- `objective_to_file` (io.py line 46): header then the flushed table. -/
def objective_to_file (m : Model) : String :=
  "min\nobj:\n" ++ String.join (objective_str m)

/-- Per-term validity mask of one constraint row:
`coef.notnull() & (var != -1)` (io.py line 69). -/
def term_nonnans (coefRow : List (Option ℚ)) (varRow : List (Option ℤ)) :
    List Bool :=
  andMasks (notnull coefRow) (neSentinel varRow)

/-- One constraint row of `lhs_str` (io.py line 71): the joined, masked
term strings reduced by concatenation along the term axis. -/
def lhs_row_str (coefRow : List (Option ℚ)) (varRow : List (Option ℤ)) :
    String :=
  String.join
    (whereMask
      (join_str_arrays
        [.arr (coefRow.map to_float_str), .const " x",
          .arr (varRow.map to_int_str), .const "\n"] coefRow.length)
      (term_nonnans coefRow varRow))

/-- `lhs_str` (io.py line 71), one string per constraint row. -/
def lhs_str (m : Model) : List String :=
  List.zipWith lhs_row_str m.constraints_lhs_coeffs m.constraints_lhs_vars

/-- Row validity mask (io.py line 74):
`nonnans.any(term_names) & (con != -1) & sign.notnull() & rhs.notnull()`. -/
def con_nonnans (m : Model) : List Bool :=
  andMasks
    (andMasks
      (andMasks
        (List.zipWith (fun cr vr => (term_nonnans cr vr).any id)
          m.constraints_lhs_coeffs m.constraints_lhs_vars)
        (neSentinel m.constraints))
      (notnull m.constraints_sign))
    (notnull m.constraints_rhs)

/-- `constraints_str` (io.py lines 76-86): the joined, masked per-row
constraint blocks.  A null sign only occurs in rows that the mask blanks
out, so its placeholder rendering is unobservable. -/
def constraints_str (m : Model) : List String :=
  whereMask
    (join_str_arrays
      [.const "c", .arr (m.constraints.map to_int_str), .const ": \n",
        .arr (lhs_str m), .arr (m.constraints_sign.map (fun s => s.getD (""))),
        .const "\n", .arr (m.constraints_rhs.map to_float_str), .const "\n\n"]
      m.constraints.length)
    (con_nonnans m)

/-- `constraints_to_file` (io.py line 58). -/
def constraints_to_file (m : Model) : String :=
  "\n\ns.t.\n\n" ++ String.join (constraints_str m)

/-- Selection of the sub-table indexed by `m._non_binary_variables`
(io.py lines 93-95). -/
def selectSub {α : Type} (sel : List Bool) (l : List α) : List α :=
  ((l.zip sel).filter (fun p => p.2)).map (fun p => p.1)

/-- `bounds_to_file` body (io.py lines 93-99). -/
def bounds_str (m : Model) : List String :=
  let lb := selectSub m.non_binary_sel m.variables_lower_bound
  let v := selectSub m.non_binary_sel m.«variables»
  let ub := selectSub m.non_binary_sel m.variables_upper_bound
  let nonnans := andMasks (andMasks (notnull lb) (notnull ub)) (neSentinel v)
  whereMask
    (join_str_arrays
      [.arr (lb.map to_float_str), .const " <= x", .arr (v.map to_int_str),
        .const " <= ", .arr (ub.map to_float_str), .const "\n"] lb.length)
    nonnans

/-- `bounds_to_file` (io.py line 90). -/
def bounds_to_file (m : Model) : String :=
  "\nbounds\n" ++ String.join (bounds_str m)

/-- `binaries_to_file` body (io.py lines 107-111): mask is `v != -1` with
no null check. -/
def binaries_str (m : Model) : List String :=
  whereMask
    (join_str_arrays
      [.const "x", .arr (m.binaries.map to_int_str), .const "\n"]
      m.binaries.length)
    (neSentinel m.binaries)

/-- `binaries_to_file` (io.py line 103), including the `end` terminator
written on line 113. -/
def binaries_to_file (m : Model) : String :=
  "\nbinary\n" ++ String.join (binaries_str m) ++ "end\n"

/-- `to_file` (io.py line 116): the full exported byte stream, section by
section. -/
def to_file (m : Model) : String :=
  objective_to_file m ++ constraints_to_file m ++ bounds_to_file m ++
    binaries_to_file m

/-- The concrete model of the worked example: objective `1 x0`, one
constraint `2 x0 + 3 x1 <= 10`, no bounds, no binaries. -/
def exampleModel : Model :=
  ⟨⟨[some 1], [some 0]⟩,
    [some 0], [[some 2, some 3]], [[some 0, some 1]], [some "<="], [some 10],
    [], [], [], [], []⟩

/-- A model with only an objective (all other tables empty). -/
def objOnlyModel (o : Objective) : Model :=
  ⟨o, [], [], [], [], [], [], [], [], [], []⟩

/-- A model with only binaries (all other tables empty). -/
def binOnlyModel (b : List (Option ℤ)) : Model :=
  ⟨⟨[], []⟩, [], [], [], [], [], [], [], [], [], b⟩

/-- A model with only constraints (all other tables empty). -/
def conOnlyModel (con : List (Option ℤ)) (coeffs : List (List (Option ℚ)))
    (vars : List (List (Option ℤ))) (sign : List (Option String))
    (rhs : List (Option ℚ)) : Model :=
  ⟨⟨[], []⟩, con, coeffs, vars, sign, rhs, [], [], [], [], []⟩

/-- Shape invariant of the constraint tables: the label, sign and rhs
arrays and the term table share the constraint axis, and within each row
the coefficient and variable arrays share the term axis (the data-model
invariant "every numeric table and its accompanying label table share
identical shape along all non-term axes"). -/
def conShapeOK (m : Model) : Bool :=
  (m.constraints_lhs_coeffs.length == m.constraints.length) &&
  (m.constraints_lhs_vars.length == m.constraints.length) &&
  (m.constraints_sign.length == m.constraints.length) &&
  (m.constraints_rhs.length == m.constraints.length) &&
  ((m.constraints_lhs_coeffs.zip m.constraints_lhs_vars).all
    fun p => p.1.length == p.2.length)

/-- The full text block of constraint row `i`: header `c<id>: `, the
reduced term lines, the sign, the rhs, and the blank line. -/
def conBlock (m : Model) (i : ℕ) : String :=
  "c" ++ to_int_str (m.constraints.getD i none) ++ ": \n" ++
    lhs_row_str (m.constraints_lhs_coeffs.getD i [])
      (m.constraints_lhs_vars.getD i []) ++
    (m.constraints_sign.getD i none).getD ("") ++ "\n" ++
    to_float_str (m.constraints_rhs.getD i none) ++ "\n\n"

/-- Validity of constraint row `i` in the claim's terms: at least one
term cell has a non-null coefficient and a variable label distinct from
the sentinel `-1`, the row's own label is not `-1`, its sign is non-null
and its rhs is non-null. -/
def RowValid (m : Model) (i : ℕ) : Prop :=
  (∃ j, j < (m.constraints_lhs_coeffs.getD i []).length ∧
      ((m.constraints_lhs_coeffs.getD i []).getD j none).isSome = true ∧
      (m.constraints_lhs_vars.getD i []).getD j none ≠ some (-1)) ∧
  m.constraints.getD i none ≠ some (-1) ∧
  (m.constraints_sign.getD i none).isSome = true ∧
  (m.constraints_rhs.getD i none).isSome = true

instance instRowValidDecidable (m : Model) (i : ℕ) : Decidable (RowValid m i) := by
  unfold RowValid
  infer_instance

/-- The constraint labels (with null formatted as 0, as printed) of the
rows that pass the row mask, in emission order. -/
def emittedConLabels (m : Model) : List ℤ :=
  ((m.constraints.zip (con_nonnans m)).filter (fun p => p.2)).map
    (fun p => p.1.getD 0)

/-- A model whose two valid constraints carry labels `1` then `0` in row
order. -/
def cexModel7 : Model :=
  conOnlyModel [some 1, some 0] [[some 1], [some 1]] [[some 0], [some 0]]
    [some "<=", some "<="] [some 0, some 0]

/-- Shape invariant of the variable tables: bounds, labels and the
non-binary selector share the variable axis. -/
def boundsShapeOK (m : Model) : Bool :=
  (m.variables_lower_bound.length == m.«variables».length) &&
  (m.variables_upper_bound.length == m.«variables».length) &&
  (m.non_binary_sel.length == m.«variables».length)

/-- A model with two variables: variable 4 is binary (so deselected from
the bounds section), variable 5 is non-binary with both bounds present. -/
def boundsWitnessModel : Model :=
  ⟨⟨[], []⟩, [], [], [], [], [], [some 4, some 5], [none, some 0],
    [none, some 2], [false, true], [some 4]⟩

/-! ## Binary snapshot codec (io.py lines 133-193)

The container is the shallow embedding of the merged `xarray.Dataset`:
named tables under flat keys plus scalar container-level attributes.
Table payloads are an arbitrary type `α` because the codec renames and
routes them without inspecting their contents. -/

structure NcContainer (α : Type) where
  vars : List (String × α)
  attrs : List (String × String)

/-- Modelled from the spec: `LinearExpression` lives in the missing
`model.py`; per §4.3 the objective is reconstructed "as a term-table
entity (not a plain table) from its raw fields", i.e. a wrapper around
the raw objective dataset (io.py line 189). -/
structure LinearExpression (α : Type) where
  ds : List (String × α)

/-- Modelled from the spec: the persisted categories and scalar
attributes of `Model` live in the missing `model.py`; §4.3 enumerates
"objective, variables table, constraints table, bounds table, binaries
table" as the category set and "objective sense, name" as the
object-level attributes. -/
structure NcModel (α : Type) where
  objective : LinearExpression α
  «variables» : List (String × α)
  constraints : List (String × α)
  bounds : List (String × α)
  binaries : List (String × α)
  objective_sense : String
  name : String

/-- Modelled from the spec: `array_attrs` (imported from `model.py` at
io.py line 147), the fixed enumeration of persisted categories. -/
def array_attrs : List String :=
  [("objective"), ("variables"), ("constraints"), ("bounds"), ("binaries")]

/-- Modelled from the spec: `obj_attrs` (imported from `model.py`), the
fixed enumeration of scalar object-level attributes. -/
def obj_attrs : List String := [("objective_sense"), ("name")]

/-- The fixed (category name ↦ getter) table replacing the reflective
`getattr(m, attr)` of io.py line 150 (spec §9 design note). -/
def getCat {α : Type} (m : NcModel α) : String → List (String × α)
  | "objective" => m.objective.ds
  | "variables" => m.«variables»
  | "constraints" => m.constraints
  | "bounds" => m.bounds
  | "binaries" => m.binaries
  | _ => []

/-- The fixed (attribute name ↦ getter) table replacing `getattr(m, k)`
of io.py line 154. -/
def getAttr {α : Type} (m : NcModel α) : String → String
  | "objective_sense" => m.objective_sense
  | "name" => m.name
  | _ => ""

/-- `get_and_rename` (io.py line 149): rename every field of a category
dataset to `"<category>-<field>"`. -/
def get_and_rename {α : Type} (cat : String) (ds : List (String × α)) :
    List (String × α) :=
  ds.map fun p => (cat ++ "-" ++ p.1, p.2)

/-- `to_netcdf` (io.py line 133): merge the renamed category datasets
into one flat container (`xr.merge`) and attach the scalar attributes
(`assign_attrs`). -/
def to_netcdf {α : Type} (m : NcModel α) : NcContainer α :=
  ⟨(array_attrs.map fun a => get_and_rename a (getCat m a)).foldl
      (fun acc l => acc ++ l) [],
    obj_attrs.map fun k => (k, getAttr m k)⟩

/-- Python's `k.startswith(p)`. -/
def strStartsWith (s p : String) : Bool := p.data.isPrefixOf s.data

/-- Python's slice `k[n:]`. -/
def strDrop (s : String) (n : ℕ) : String := String.mk (s.data.drop n)

/-- One loop iteration of `read_netcdf` (io.py lines 185-188): select
the keys carrying the category prefix and strip it.  An absent category
yields the empty dataset without error (`all_ds[[]]`). -/
def selectCat {α : Type} (c : NcContainer α) (cat : String) :
    List (String × α) :=
  (c.vars.filter fun p => strStartsWith p.1 (cat ++ "-")).map
    fun p => (strDrop p.1 (cat.length + 1), p.2)

/-- `ds.attrs.pop(k)` (io.py line 192): a missing key raises
`KeyError(k)`.  Selection and rename preserve the container attributes,
so the pop reads the container's attribute set. -/
def popAttr (attrs : List (String × String)) (k : String) :
    Except String String :=
  match attrs.lookup k with
  | some v => Except.ok v
  | none => Except.error k

/-- `read_netcdf` (io.py line 159): assign every category onto a fresh
model, wrap the objective as a term-table entity, then pop the scalar
attributes (failing with the missing key when one is absent). -/
def read_netcdf {α : Type} (c : NcContainer α) : Except String (NcModel α) :=
  let obj := LinearExpression.mk (selectCat c ("objective"))
  let vs := selectCat c ("variables")
  let cs := selectCat c ("constraints")
  let bs := selectCat c ("bounds")
  let bins := selectCat c ("binaries")
  match popAttr c.attrs ("objective_sense") with
  | Except.error k => Except.error k
  | Except.ok sense =>
    match popAttr c.attrs ("name") with
    | Except.error k => Except.error k
    | Except.ok nm => Except.ok ⟨obj, vs, cs, bs, bins, sense, nm⟩

/-- The first expected scalar attribute key absent from a container. -/
def missingAttr {α : Type} (c : NcContainer α) : Option String :=
  obj_attrs.find? fun k => (c.attrs.lookup k).isNone

/-- The model a load assembles when no attribute lookup fails. -/
def buildNc {α : Type} (c : NcContainer α) : NcModel α :=
  ⟨⟨selectCat c ("objective")⟩, selectCat c ("variables"),
    selectCat c ("constraints"), selectCat c ("bounds"),
    selectCat c ("binaries"),
    (c.attrs.lookup ("objective_sense")).getD (""),
    (c.attrs.lookup ("name")).getD ("")⟩

/-- A container holding all scalar attributes but no key of the
`variables` category (nor of constraints, bounds, binaries). -/
def cexContainer4 : NcContainer ℕ :=
  ⟨[(("objective-coeffs"), 0)],
    [(("objective_sense"), ("min")), (("name"), ("m"))]⟩

/-- A list of characters consisting only of decimal digits. -/
abbrev allDigits (l : List Char) : Prop := ∀ c ∈ l, c.isDigit = true

/-- A nonempty digit list with no redundant leading zero. -/
abbrev noLeadingZeros (l : List Char) : Prop :=
  l ≠ [] ∧ (l.head? = some '0' → l = ['0'])

theorem digitChar_isDigit {d : ℕ} (h : d < 10) : (digitChar d).isDigit = true := by
  interval_cases d <;> decide

theorem digitChar_ne_zero {d : ℕ} (h1 : 1 ≤ d) (h2 : d < 10) :
    digitChar d ≠ '0' := by
  interval_cases d <;> decide

theorem natDigitsAux_all_digits :
    ∀ (fuel n : ℕ) (acc : List Char), (∀ c ∈ acc, c.isDigit = true) →
      ∀ c ∈ natDigitsAux fuel n acc, c.isDigit = true := by
  intro fuel
  induction fuel with
  | zero => intro n acc hacc; simpa [natDigitsAux] using hacc
  | succ fuel ih =>
    intro n acc hacc c hc
    by_cases h : n < 10
    · rw [natDigitsAux, if_pos h] at hc
      rcases List.mem_cons.mp hc with h' | h'
      · exact h' ▸ digitChar_isDigit h
      · exact hacc c h'
    · rw [natDigitsAux, if_neg h] at hc
      refine ih (n / 10) (digitChar (n % 10) :: acc) ?_ c hc
      intro c' hc'
      rcases List.mem_cons.mp hc' with h' | h'
      · exact h' ▸ digitChar_isDigit (Nat.mod_lt n (by norm_num))
      · exact hacc c' h'

theorem natDigitsAux_length_mono :
    ∀ (fuel n : ℕ) (acc : List Char),
      acc.length ≤ (natDigitsAux fuel n acc).length := by
  intro fuel
  induction fuel with
  | zero => intro n acc; simp [natDigitsAux]
  | succ fuel ih =>
    intro n acc
    by_cases h : n < 10
    · rw [natDigitsAux, if_pos h]; simp
    · rw [natDigitsAux, if_neg h]
      calc acc.length ≤ (digitChar (n % 10) :: acc).length := by simp
        _ ≤ _ := ih (n / 10) (digitChar (n % 10) :: acc)

theorem natDigitsAux_length_le :
    ∀ (fuel k n : ℕ) (acc : List Char), n < 10 ^ k → 1 ≤ k →
      (natDigitsAux fuel n acc).length ≤ k + acc.length := by
  intro fuel
  induction fuel with
  | zero =>
    intro k n acc _ _
    rw [show natDigitsAux 0 n acc = acc from rfl]
    exact Nat.le_add_left _ _
  | succ fuel ih =>
    intro k n acc hn hk
    by_cases h : n < 10
    · rw [natDigitsAux, if_pos h]; simp; omega
    · rw [natDigitsAux, if_neg h]
      have hk2 : 2 ≤ k := by
        rcases Nat.lt_or_ge k 2 with h2 | h2
        · interval_cases k
          all_goals omega
        · exact h2
      have hdiv : n / 10 < 10 ^ (k - 1) := by
        rw [Nat.div_lt_iff_lt_mul (by norm_num : (0:ℕ) < 10)]
        have : 10 ^ (k - 1) * 10 = 10 ^ k := by
          rw [← pow_succ]; congr 1; omega
        omega
      have := ih (k - 1) (n / 10) (digitChar (n % 10) :: acc) hdiv (by omega)
      simp at this
      omega

theorem natDigitsAux_leading :
    ∀ (fuel n : ℕ) (acc : List Char), 1 ≤ n → n < 10 ^ fuel →
      ∃ d rest, natDigitsAux fuel n acc = digitChar d :: rest ∧ 1 ≤ d ∧ d < 10 := by
  intro fuel
  induction fuel with
  | zero => intro n acc h1 h2; simp at h2; omega
  | succ fuel ih =>
    intro n acc h1 h2
    by_cases h : n < 10
    · exact ⟨n, acc, by rw [natDigitsAux, if_pos h], h1, h⟩
    · rw [natDigitsAux, if_neg h]
      refine ih (n / 10) _ ?_ ?_
      · rw [Nat.one_le_div_iff (by norm_num : (0:ℕ) < 10)]; omega
      · rw [Nat.div_lt_iff_lt_mul (by norm_num : (0:ℕ) < 10)]
        calc n < 10 ^ (fuel + 1) := h2
          _ = 10 ^ fuel * 10 := by rw [pow_succ]

theorem natDigits_all_digits (n : ℕ) : allDigits (natDigits n) :=
  natDigitsAux_all_digits (n + 1) n [] (by simp)

theorem natDigits_length_le {n k : ℕ} (h : n < 10 ^ k) (hk : 1 ≤ k) :
    (natDigits n).length ≤ k := by
  have := natDigitsAux_length_le (n + 1) k n [] h hk
  simpa using this

theorem natDigits_ne_nil (n : ℕ) : natDigits n ≠ [] := by
  by_cases h : n < 10
  · rw [natDigits, natDigitsAux, if_pos h]; simp
  · rw [natDigits, natDigitsAux, if_neg h]
    intro hcon
    have := natDigitsAux_length_mono n (n / 10) (digitChar (n % 10) :: [])
    rw [hcon] at this
    simp at this

theorem natDigits_zero : natDigits 0 = ['0'] := by decide

theorem natDigits_noLeadingZeros (n : ℕ) : noLeadingZeros (natDigits n) := by
  rcases Nat.eq_zero_or_pos n with rfl | hn
  · rw [natDigits_zero]; exact ⟨by simp, fun _ => rfl⟩
  · have hlt : n < 10 ^ (n + 1) := by
      calc n < 10 ^ n := Nat.lt_pow_self (by norm_num) n
        _ ≤ 10 ^ (n + 1) := Nat.pow_le_pow_right (by norm_num) (Nat.le_succ n)
    obtain ⟨d, rest, hform, hd1, hd10⟩ := natDigitsAux_leading (n + 1) n [] hn hlt
    rw [natDigits, hform]
    refine ⟨by simp, ?_⟩
    intro hh
    simp at hh
    exact absurd hh (digitChar_ne_zero hd1 hd10)

theorem isDigit_excl {c : Char} (h : c.isDigit = true) :
    c ≠ '+' ∧ c ≠ '-' ∧ c ≠ 'e' ∧ c ≠ ',' := by
  refine ⟨?_, ?_, ?_, ?_⟩ <;> rintro rfl <;> exact absurd h (by decide)

theorem strData_mk (l : List Char) : (String.mk l).data = l := rfl

theorem strData_empty : ("" : String).data = [] := rfl

theorem strEq_of_data {a b : String} (h : a.data = b.data) : a = b := by
  cases a; cases b; exact congrArg String.mk h

theorem strAppend_assoc (a b c : String) : a ++ b ++ c = a ++ (b ++ c) :=
  strEq_of_data (by simp [String.data_append])

theorem strEmpty_append (s : String) : ("" ++ s) = s :=
  strEq_of_data (by simp [String.data_append, strData_empty])

/-- C2: the text export of the model with objective `1 x0` and single
constraint `2 x0 + 3 x1 <= 10` (variable ids 0 and 1, constraint id 0),
no declared bounds and no binaries, is exactly the claimed byte string. -/
theorem C2_exact_output : to_file exampleModel =
    "min\nobj:\n+1.000000 x0\n\n\ns.t.\n\nc0: \n+2.000000 x0\n+3.000000 x1\n<=\n+10.000000\n\n\nbounds\n\nbinary\nend\n" := by
  decide

/-- C5 counterexample: `to_int_str` renders the non-sentinel label `-2`
(null-replaced input `some (-2)`) as `"-2"`, which contains a sign
character, so labels are not always rendered as a plain unsigned decimal
integer. -/
theorem C5_counterexample :
    to_int_str (some (-2)) = "-2" ∧
    ¬ allDigits (to_int_str (some (-2))).data := by
  refine ⟨by decide, ?_⟩
  intro h
  exact absurd (h '-' (by decide)) (by decide)

/-- C5 (amended): for every float value (null replaced by 0),
`to_float_str` renders exactly one leading sign character followed by a
fixed-point decimal with exactly 6 fractional digits and no other
characters (so never scientific notation, never thousands separators);
for every NON-NEGATIVE label value (null replaced by 0), `to_int_str`
renders a plain decimal integer with no sign and no leading zeros.
(Negative labels, which the claim did not carve out, are rendered with a
leading minus sign, see the counterexample.) -/
theorem C5_amended (v : Option ℚ) (w : Option ℤ) (hw : 0 ≤ w.getD 0) :
    (∃ sgn ip fp, (sgn = '+' ∨ sgn = '-') ∧
      (to_float_str v).data = sgn :: (ip ++ '.' :: fp) ∧
      ip ≠ [] ∧ allDigits ip ∧ fp.length = 6 ∧ allDigits fp ∧
      ∀ c ∈ ip ++ '.' :: fp, c ≠ '+' ∧ c ≠ '-' ∧ c ≠ 'e' ∧ c ≠ ',') ∧
    (to_int_str w).data = natDigits (w.getD 0).toNat ∧
    allDigits (to_int_str w).data ∧ noLeadingZeros (to_int_str w).data := by
  have hfplen : ∀ B : ℕ, (padZeros 6 (natDigits (B % 1000000))).length = 6 := by
    intro B
    have hB : B % 1000000 < 10 ^ 6 := by
      have := Nat.mod_lt B (show 0 < 1000000 by norm_num)
      norm_num
      omega
    have hL := natDigits_length_le hB (by norm_num)
    simp [padZeros]
    omega
  have hfpdig : ∀ B : ℕ, allDigits (padZeros 6 (natDigits (B % 1000000))) := by
    intro B c hc
    rcases List.mem_append.mp hc with h' | h'
    · rw [List.eq_of_mem_replicate h']; decide
    · exact natDigits_all_digits _ c h'
  constructor
  · refine ⟨if (v.getD 0).num < 0 then '-' else '+',
      natDigits ((roundHalfEvenFrac (|(v.getD 0).num| * 1000000)
        ((v.getD 0).den : ℤ)).toNat / 1000000),
      padZeros 6 (natDigits ((roundHalfEvenFrac (|(v.getD 0).num| * 1000000)
        ((v.getD 0).den : ℤ)).toNat % 1000000)),
      ?_, ?_, natDigits_ne_nil _, natDigits_all_digits _, hfplen _, hfpdig _, ?_⟩
    · by_cases h : (v.getD 0).num < 0 <;> simp [h]
    · by_cases h : (v.getD 0).num < 0 <;>
        simp [to_float_str, natStr, h, String.data_append]
    · intro c hc
      rcases List.mem_append.mp hc with h' | h'
      · exact isDigit_excl (natDigits_all_digits _ c h')
      · rcases List.mem_cons.mp h' with h'' | h''
        · exact h'' ▸ ⟨by decide, by decide, by decide, by decide⟩
        · exact isDigit_excl (hfpdig _ c h'')
  · have hneg : ¬ (w.getD 0 < 0) := not_lt.mpr hw
    have hdata : (to_int_str w).data = natDigits (w.getD 0).toNat := by
      simp [to_int_str, intStr, hneg, natStr]
    refine ⟨hdata, ?_, ?_⟩
    · rw [hdata]; exact natDigits_all_digits _
    · rw [hdata]; exact natDigits_noLeadingZeros _

/-- C5 witness: the amended theorem instantiated at the concrete inputs
`-2` (float) and `7` (label). -/
theorem C5_witness :
    (0:ℤ) ≤ ((some 7 : Option ℤ)).getD 0 ∧
    ((∃ sgn ip fp, (sgn = '+' ∨ sgn = '-') ∧
      (to_float_str (some (-2))).data = sgn :: (ip ++ '.' :: fp) ∧
      ip ≠ [] ∧ allDigits ip ∧ fp.length = 6 ∧ allDigits fp ∧
      ∀ c ∈ ip ++ '.' :: fp, c ≠ '+' ∧ c ≠ '-' ∧ c ≠ 'e' ∧ c ≠ ',') ∧
    (to_int_str (some 7)).data = natDigits (((some 7 : Option ℤ)).getD 0).toNat ∧
    allDigits (to_int_str (some 7)).data ∧
    noLeadingZeros (to_int_str (some 7)).data) :=
  ⟨by decide, C5_amended (some (-2)) (some 7) (by decide)⟩

/-- C6: the export writes the objective section (`min\nobj:\n` plus the
materialized masked objective table), then the constraints section
(`\n\ns.t.\n\n` plus its table), then the bounds section (`\nbounds\n`
plus its table), then the binaries section (`\nbinary\n` plus its table),
then the terminator `end\n`, in exactly this order with no
interleaving. -/
theorem C6_section_order (m : Model) :
    to_file m =
      "min\nobj:\n" ++ String.join (objective_str m) ++
      "\n\ns.t.\n\n" ++ String.join (constraints_str m) ++
      "\nbounds\n" ++ String.join (bounds_str m) ++
      "\nbinary\n" ++ String.join (binaries_str m) ++ "end\n" := by
  apply String.ext
  simp [to_file, objective_to_file, constraints_to_file, bounds_to_file,
    binaries_to_file, String.data_append]

/-- C8: a term cell with coefficient exactly `0.0` (non-null) and a
variable label other than the sentinel `-1` is still emitted, as
`+0.000000 x<id>` — both as an objective term and as a constraint term
inside its row's block: cell validity depends only on the null/sentinel
mask, never on the numeric magnitude of the coefficient. -/
theorem C8_zero_coeff (v : Option ℤ) (hv : v ≠ some (-1)) :
    objective_to_file (objOnlyModel ⟨[some 0], [v]⟩) =
      "min\nobj:\n+0.000000 x" ++ to_int_str v ++ "\n" ∧
    constraints_to_file
        (conOnlyModel [some 0] [[some 0]] [[v]] [some "<="] [some 1]) =
      "\n\ns.t.\n\nc0: \n+0.000000 x" ++ to_int_str v ++ "\n<=\n+1.000000\n\n" := by
  have h0 : to_float_str (some 0) = "+0.000000" := by decide
  have h1 : to_float_str (some 1) = "+1.000000" := by decide
  have h2 : to_int_str (some 0) = "0" := by decide
  constructor
  · apply String.ext
    simp [objective_to_file, objOnlyModel, objective_str, join_str_arrays,
      whereMask, andMasks, notnull, neSentinel, StrArr.get, String.join,
      List.range_succ, List.foldl, hv, h0, String.data_append]
  · apply String.ext
    simp [constraints_to_file, conOnlyModel, constraints_str, con_nonnans,
      lhs_str, lhs_row_str, term_nonnans, join_str_arrays, whereMask,
      andMasks, notnull, neSentinel, StrArr.get, String.join,
      List.range_succ, List.foldl, hv, h0, h1, h2, String.data_append]

/-- C8 witness: the zero-coefficient term with label 5 is emitted, in
the objective and in a constraint block. -/
theorem C8_witness :
    (some (5:ℤ) ≠ some (-1)) ∧
    (objective_to_file (objOnlyModel ⟨[some 0], [some 5]⟩) =
      "min\nobj:\n+0.000000 x" ++ to_int_str (some 5) ++ "\n" ∧
    constraints_to_file
        (conOnlyModel [some 0] [[some 0]] [[some 5]] [some "<="] [some 1]) =
      "\n\ns.t.\n\nc0: \n+0.000000 x" ++ to_int_str (some 5) ++
        "\n<=\n+1.000000\n\n") :=
  ⟨by decide, C8_zero_coeff (some 5) (by decide)⟩

/-- C9: the validity masks test only `label != -1`, and a null label
compares unequal to `-1`, so an objective or constraint term cell with a
non-null coefficient but a null variable label, and a binary entry with a
null label, all pass the mask and are emitted with the null label
formatted as `0` (text `x0`) rather than skipped. -/
theorem C9_null_label (c : ℚ) :
    objective_to_file (objOnlyModel ⟨[some c], [none]⟩) =
      "min\nobj:\n" ++ to_float_str (some c) ++ " x0\n" ∧
    binaries_to_file (binOnlyModel [none]) = "\nbinary\nx0\nend\n" ∧
    constraints_to_file
        (conOnlyModel [some 0] [[some c]] [[none]] [some "<="] [some 0]) =
      "\n\ns.t.\n\nc0: \n" ++ to_float_str (some c) ++ " x0\n<=\n+0.000000\n\n" := by
  have h0 : to_float_str (some 0) = "+0.000000" := by decide
  have h1 : to_int_str none = "0" := by decide
  have h2 : to_int_str (some 0) = "0" := by decide
  refine ⟨?_, by decide, ?_⟩
  · apply String.ext
    simp [objective_to_file, objOnlyModel, objective_str, join_str_arrays,
      whereMask, andMasks, notnull, neSentinel, StrArr.get, String.join,
      List.range_succ, List.foldl, h1, String.data_append]
  · apply String.ext
    simp [constraints_to_file, conOnlyModel, constraints_str, con_nonnans,
      lhs_str, lhs_row_str, term_nonnans, join_str_arrays, whereMask,
      andMasks, notnull, neSentinel, StrArr.get, String.join,
      List.range_succ, List.foldl, h0, h1, h2, String.data_append]

theorem getD_map_str {α : Type} (f : α → String) (l : List α) (i : ℕ)
    (h : i < l.length) : (l.map f).getD i ("") = f l[i] := by
  rw [List.getD_eq_getElem _ ("") (by simpa using h)]
  simp

theorem term_nonnans_length (cr : List (Option ℚ)) (vr : List (Option ℤ)) :
    (term_nonnans cr vr).length = min cr.length vr.length := by
  simp [term_nonnans, andMasks, notnull, neSentinel]

theorem term_nonnans_any (cr : List (Option ℚ)) (vr : List (Option ℤ))
    (hlen : vr.length = cr.length) :
    ((term_nonnans cr vr).any id = true) ↔
      ∃ j, j < cr.length ∧ (cr.getD j none).isSome = true ∧
        vr.getD j none ≠ some (-1) := by
  rw [List.any_eq_true]
  constructor
  · rintro ⟨x, hmem, hx⟩
    obtain ⟨j, hj, hje⟩ := List.mem_iff_getElem.mp hmem
    rw [term_nonnans_length] at hj
    have hjc : j < cr.length := by omega
    have hjv : j < vr.length := by omega
    rw [← hje] at hx
    simp [term_nonnans, andMasks, notnull, neSentinel] at hx
    refine ⟨j, hjc, ?_, ?_⟩
    · rw [List.getD_eq_getElem cr none hjc]; exact hx.1
    · rw [List.getD_eq_getElem vr none hjv]; exact hx.2
  · rintro ⟨j, hj, h1, h2⟩
    have hjv : j < vr.length := by omega
    have hjz : j < (term_nonnans cr vr).length := by
      rw [term_nonnans_length]; omega
    refine ⟨(term_nonnans cr vr)[j], List.getElem_mem hjz, ?_⟩
    rw [List.getD_eq_getElem cr none hj] at h1
    rw [List.getD_eq_getElem vr none hjv] at h2
    simp [term_nonnans, andMasks, notnull, neSentinel]
    exact ⟨h1, h2⟩

theorem conShape_facts (m : Model) (hs : conShapeOK m = true) :
    m.constraints_lhs_coeffs.length = m.constraints.length ∧
    m.constraints_lhs_vars.length = m.constraints.length ∧
    m.constraints_sign.length = m.constraints.length ∧
    m.constraints_rhs.length = m.constraints.length ∧
    ∀ i, i < m.constraints.length →
      (m.constraints_lhs_vars.getD i []).length =
        (m.constraints_lhs_coeffs.getD i []).length := by
  simp only [conShapeOK, Bool.and_eq_true, beq_iff_eq, List.all_eq_true] at hs
  obtain ⟨⟨⟨⟨hc, hv⟩, hsg⟩, hr⟩, hall⟩ := hs
  refine ⟨hc, hv, hsg, hr, ?_⟩
  intro i hi
  have hic : i < m.constraints_lhs_coeffs.length := by omega
  have hiv : i < m.constraints_lhs_vars.length := by omega
  have hmem : (m.constraints_lhs_coeffs[i], m.constraints_lhs_vars[i]) ∈
      m.constraints_lhs_coeffs.zip m.constraints_lhs_vars := by
    have hiz : i < (m.constraints_lhs_coeffs.zip m.constraints_lhs_vars).length := by
      simp; omega
    have := List.getElem_mem hiz
    simpa [List.getElem_zip] using this
  have := hall _ hmem
  rw [List.getD_eq_getElem _ [] hic, List.getD_eq_getElem _ [] hiv]
  simpa using this.symm

theorem con_nonnans_length (m : Model) (hs : conShapeOK m = true) :
    (con_nonnans m).length = m.constraints.length := by
  obtain ⟨hc, hv, hsg, hr, _⟩ := conShape_facts m hs
  simp [con_nonnans, andMasks, notnull, neSentinel]
  omega

theorem con_nonnans_getD (m : Model) (i : ℕ) (hs : conShapeOK m = true)
    (hi : i < m.constraints.length) :
    ((con_nonnans m).getD i false = true) ↔ RowValid m i := by
  obtain ⟨hc, hv, hsg, hr, hall⟩ := conShape_facts m hs
  have hic : i < m.constraints_lhs_coeffs.length := by omega
  have hiv : i < m.constraints_lhs_vars.length := by omega
  have hisg : i < m.constraints_sign.length := by omega
  have hir : i < m.constraints_rhs.length := by omega
  have hmaskel : (con_nonnans m).getD i false =
      ((((term_nonnans (m.constraints_lhs_coeffs.getD i [])
          (m.constraints_lhs_vars.getD i [])).any id &&
        decide (m.constraints.getD i none ≠ some (-1))) &&
        (m.constraints_sign.getD i none).isSome) &&
        (m.constraints_rhs.getD i none).isSome) := by
    rw [List.getD_eq_getElem _ false (by rw [con_nonnans_length m hs]; omega),
      List.getD_eq_getElem _ [] hic, List.getD_eq_getElem _ [] hiv,
      List.getD_eq_getElem _ none hi, List.getD_eq_getElem _ none hisg,
      List.getD_eq_getElem _ none hir]
    simp [con_nonnans, andMasks, notnull, neSentinel]
  rw [hmaskel]
  simp only [Bool.and_eq_true, decide_eq_true_eq]
  rw [term_nonnans_any _ _ (hall i hi)]
  unfold RowValid
  tauto

theorem lhs_str_getD (m : Model) (i : ℕ)
    (h1 : i < m.constraints_lhs_coeffs.length)
    (h2 : i < m.constraints_lhs_vars.length) :
    (lhs_str m).getD i ("") =
      lhs_row_str (m.constraints_lhs_coeffs.getD i [])
        (m.constraints_lhs_vars.getD i []) := by
  rw [List.getD_eq_getElem _ ("") (by simp [lhs_str]; omega),
    List.getD_eq_getElem _ [] h1, List.getD_eq_getElem _ [] h2]
  simp [lhs_str]

theorem constraints_str_length (m : Model) (hs : conShapeOK m = true) :
    (constraints_str m).length = m.constraints.length := by
  simp [constraints_str, whereMask, join_str_arrays, con_nonnans_length m hs]

theorem constraints_str_getD (m : Model) (i : ℕ) (hs : conShapeOK m = true)
    (hi : i < m.constraints.length) :
    (constraints_str m).getD i ("") =
      if (con_nonnans m).getD i false = true then conBlock m i else ("") := by
  obtain ⟨hc, hv, hsg, hr, hall⟩ := conShape_facts m hs
  have hic : i < m.constraints_lhs_coeffs.length := by omega
  have hiv : i < m.constraints_lhs_vars.length := by omega
  have hisg : i < m.constraints_sign.length := by omega
  have hir : i < m.constraints_rhs.length := by omega
  have hmask : i < (con_nonnans m).length := by rw [con_nonnans_length m hs]; omega
  rw [List.getD_eq_getElem _ ("") (by rw [constraints_str_length m hs]; omega)]
  rw [List.getD_eq_getElem _ false hmask]
  simp only [constraints_str, whereMask, List.getElem_zipWith]
  by_cases hm : (con_nonnans m)[i] = true
  · simp only [hm, if_true]
    have hjoin : i < (List.range m.constraints.length).length := by simp; omega
    simp only [join_str_arrays, List.getElem_map, List.getElem_range,
      List.foldl, StrArr.get]
    rw [getD_map_str to_int_str _ i hi,
      getD_map_str (fun s => Option.getD s ("")) _ i hisg,
      getD_map_str to_float_str _ i hir,
      lhs_str_getD m i hic hiv]
    unfold conBlock
    rw [List.getD_eq_getElem _ none hi, List.getD_eq_getElem _ none hisg,
      List.getD_eq_getElem _ none hir]
    apply String.ext
    simp [String.data_append]
  · simp only [hm, if_false]
    simp [Bool.not_eq_true] at hm
    simp [hm]

/-- C3: a constraint row contributes its block to the `s.t.` section if
and only if it is valid (some term cell has a non-null coefficient and a
label other than `-1`, the row label is not `-1`, sign and rhs are
non-null); an invalid row contributes the empty string, so no `c<id>: `
header, sign or rhs text for it appears in the output, and a valid row's
block is never the empty string. -/
theorem C3_valid_iff_block (m : Model) (i : ℕ) (hs : conShapeOK m = true)
    (hi : i < m.constraints.length) :
    ((constraints_str m).getD i ("") =
      if RowValid m i then conBlock m i else ("")) ∧
    (RowValid m i → (constraints_str m).getD i ("") ≠ ("")) := by
  have hmain : (constraints_str m).getD i ("") =
      if RowValid m i then conBlock m i else ("") := by
    rw [constraints_str_getD m i hs hi]
    by_cases h : RowValid m i
    · rw [if_pos h, if_pos ((con_nonnans_getD m i hs hi).mpr h)]
    · rw [if_neg h, if_neg (fun hb => h ((con_nonnans_getD m i hs hi).mp hb))]
  refine ⟨hmain, ?_⟩
  intro h
  rw [hmain, if_pos h]
  intro hcon
  have : (conBlock m i).data = [] := by rw [hcon]
  unfold conBlock at this
  simp [String.data_append] at this

/-- C3 witness: the worked example's single constraint row is valid and
contributes a non-empty block. -/
theorem C3_witness :
    conShapeOK exampleModel = true ∧ 0 < exampleModel.constraints.length ∧
    RowValid exampleModel 0 ∧
    ((constraints_str exampleModel).getD 0 ("") =
      if RowValid exampleModel 0 then conBlock exampleModel 0 else ("")) ∧
    (constraints_str exampleModel).getD 0 ("") ≠ ("") := by
  have h := C3_valid_iff_block exampleModel 0 (by decide) (by decide)
  exact ⟨by decide, by decide, by decide, h.1, h.2 (by decide)⟩

theorem whereMask_getD (l : List String) (mask : List Bool) (i : ℕ)
    (h1 : i < l.length) (h2 : i < mask.length) :
    (whereMask l mask).getD i ("") =
      if mask.getD i false = true then l.getD i ("") else ("") := by
  rw [List.getD_eq_getElem _ ("") (by simp [whereMask]; omega),
    List.getD_eq_getElem _ false h2, List.getD_eq_getElem _ ("") h1]
  simp [whereMask]

theorem andMasks_getD (a b : List Bool) (i : ℕ) (h1 : i < a.length)
    (h2 : i < b.length) :
    (andMasks a b).getD i false = (a.getD i false && b.getD i false) := by
  rw [List.getD_eq_getElem _ false (by simp [andMasks]; omega),
    List.getD_eq_getElem _ false h1, List.getD_eq_getElem _ false h2]
  simp [andMasks]

theorem notnull_getD {α : Type} (l : List (Option α)) (i : ℕ)
    (h : i < l.length) :
    (notnull l).getD i false = (l.getD i none).isSome := by
  rw [List.getD_eq_getElem _ false (by simp [notnull]; omega),
    List.getD_eq_getElem _ none h]
  simp [notnull]

theorem neSentinel_getD (l : List (Option ℤ)) (i : ℕ) (h : i < l.length) :
    (neSentinel l).getD i false = decide (l.getD i none ≠ some (-1)) := by
  rw [List.getD_eq_getElem _ false (by simp [neSentinel]; omega),
    List.getD_eq_getElem _ none h]
  simp [neSentinel]

theorem join_str_arrays_getD (comps : List StrArr) (len i : ℕ) (h : i < len) :
    (join_str_arrays comps len).getD i ("") =
      comps.foldl (fun acc c => acc ++ c.get i) "" := by
  rw [List.getD_eq_getElem _ ("") (by simp [join_str_arrays]; omega)]
  simp [join_str_arrays]

theorem getD_map_strD {α : Type} (f : α → String) (l : List α) (i : ℕ)
    (d : α) (h : i < l.length) :
    (l.map f).getD i ("") = f (l.getD i d) := by
  rw [List.getD_eq_getElem _ d h]
  exact getD_map_str f l i h

/-- C7 counterexample: the model whose valid rows carry labels `1` then
`0` in row order emits block `c1` before block `c0`, so the emitted
constraint labels are not in ascending order. -/
theorem C7_counterexample :
    emittedConLabels cexModel7 = [1, 0] ∧
    ¬ List.Sorted (· ≤ ·) (emittedConLabels cexModel7) ∧
    constraints_to_file cexModel7 =
      "\n\ns.t.\n\nc1: \n+1.000000 x0\n<=\n+0.000000\n\nc0: \n+1.000000 x0\n<=\n+0.000000\n\n" := by
  have he : emittedConLabels cexModel7 = [1, 0] := by decide
  refine ⟨he, ?_, by decide⟩
  rw [he]
  intro hsorted
  have := List.rel_of_sorted_cons hsorted 0 (by simp)
  omega

/-- C7 (amended): constraint blocks appear in the row order of the
constraint table — ascending label order only when labels increase with
row index, which the export does not enforce (see the counterexample) —
and within each block the term lines appear in ascending term-axis index
order, with invalid terms contributing the empty string so the remaining
term lines close up with no gap. -/
theorem C7_amended (m : Model) (hs : conShapeOK m = true) :
    constraints_str m = (List.range m.constraints.length).map
      (fun i => if (con_nonnans m).getD i false = true then conBlock m i
        else ("")) ∧
    ∀ (cr : List (Option ℚ)) (vr : List (Option ℤ)), vr.length = cr.length →
      lhs_row_str cr vr = String.join ((List.range cr.length).map
        (fun j => if ((cr.getD j none).isSome = true ∧
            vr.getD j none ≠ some (-1))
          then to_float_str (cr.getD j none) ++ " x" ++
            to_int_str (vr.getD j none) ++ "\n"
          else (""))) := by
  constructor
  · apply List.ext_getElem
    · rw [constraints_str_length m hs]; simp
    · intro i h1 h2
      have hi : i < m.constraints.length := by
        rw [constraints_str_length m hs] at h1; exact h1
      rw [← List.getD_eq_getElem _ ("") h1, constraints_str_getD m i hs hi]
      simp
  · intro cr vr hlen
    unfold lhs_row_str
    congr 1
    apply List.ext_getElem
    · simp [whereMask, join_str_arrays, term_nonnans, andMasks, notnull,
        neSentinel]
      omega
    · intro j h1 h2
      have hj : j < cr.length := by
        simp [whereMask, join_str_arrays, term_nonnans, andMasks, notnull,
          neSentinel] at h1
        omega
      have hjv : j < vr.length := by omega
      rw [← List.getD_eq_getElem _ ("") h1]
      rw [whereMask_getD _ _ j (by simp [join_str_arrays]; omega)
        (by rw [term_nonnans_length]; omega)]
      rw [join_str_arrays_getD _ _ j hj]
      have hm : (term_nonnans cr vr).getD j false =
          ((cr.getD j none).isSome && decide (vr.getD j none ≠ some (-1))) := by
        unfold term_nonnans
        rw [andMasks_getD _ _ j (by simp [notnull]; omega)
          (by simp [neSentinel]; omega), notnull_getD _ _ hj,
          neSentinel_getD _ _ hjv]
      rw [hm]
      simp only [List.foldl, StrArr.get]
      rw [getD_map_strD to_float_str cr j none hj,
        getD_map_strD to_int_str vr j none hjv]
      rw [List.getElem_map]
      simp only [List.getElem_range]
      simp only [Bool.and_eq_true, decide_eq_true_eq]
      rw [strEmpty_append]

/-- C7 witness: the amended row-order characterization instantiated on
the worked example. -/
theorem C7_witness :
    conShapeOK exampleModel = true ∧
    constraints_str exampleModel = (List.range exampleModel.constraints.length).map
      (fun i => if (con_nonnans exampleModel).getD i false = true
        then conBlock exampleModel i else ("")) :=
  ⟨by decide, (C7_amended exampleModel (by decide)).1⟩

theorem selectSub_cons {α : Type} (b : Bool) (sel : List Bool) (a : α)
    (l : List α) :
    selectSub (b :: sel) (a :: l) =
      if b then a :: selectSub sel l else selectSub sel l := by
  cases b <;> simp [selectSub]

theorem selectSub_length_eq {α β : Type} :
    ∀ (sel : List Bool) (l₁ : List α) (l₂ : List β), l₁.length = l₂.length →
      (selectSub sel l₁).length = (selectSub sel l₂).length := by
  intro sel
  induction sel with
  | nil => intro l₁ l₂ h; simp [selectSub]
  | cons b sel ih =>
    intro l₁ l₂ h
    cases l₁ with
    | nil =>
      cases l₂ with
      | nil => rfl
      | cons c l₂ => simp at h
    | cons a l₁ =>
      cases l₂ with
      | nil => simp at h
      | cons c l₂ =>
        simp only [List.length_cons, Nat.add_right_cancel_iff] at h
        rw [selectSub_cons, selectSub_cons]
        cases b
        · simpa using ih l₁ l₂ h
        · simpa using ih l₁ l₂ h

theorem bounds_str_eq (m : Model) :
    bounds_str m =
      whereMask
        (join_str_arrays
          [.arr ((selectSub m.non_binary_sel m.variables_lower_bound).map to_float_str),
            .const " <= x",
            .arr ((selectSub m.non_binary_sel m.«variables»).map to_int_str),
            .const " <= ",
            .arr ((selectSub m.non_binary_sel m.variables_upper_bound).map to_float_str),
            .const "\n"]
          (selectSub m.non_binary_sel m.variables_lower_bound).length)
        (andMasks
          (andMasks
            (notnull (selectSub m.non_binary_sel m.variables_lower_bound))
            (notnull (selectSub m.non_binary_sel m.variables_upper_bound)))
          (neSentinel (selectSub m.non_binary_sel m.«variables»))) := rfl

/-- C10: a non-binary variable gets a bounds line if and only if its
lower bound is non-null, its upper bound is non-null, and its label is
not `-1`; if either bound is null the entire line is omitted (the null
bound is not rendered as 0).  The bounds table ranges only over the
variables selected as non-binary, so binary variables never appear in
the bounds section (first conjunct: one potential entry per selected
variable). -/
theorem C10_bounds_iff (m : Model) (i : ℕ) (hs : boundsShapeOK m = true)
    (hi : i < (selectSub m.non_binary_sel m.«variables»).length) :
    (bounds_str m).length =
      (selectSub m.non_binary_sel m.«variables»).length ∧
    ((bounds_str m).getD i ("") =
      if ((selectSub m.non_binary_sel m.variables_lower_bound).getD i none).isSome = true ∧
          ((selectSub m.non_binary_sel m.variables_upper_bound).getD i none).isSome = true ∧
          (selectSub m.non_binary_sel m.«variables»).getD i none ≠ some (-1)
        then to_float_str ((selectSub m.non_binary_sel m.variables_lower_bound).getD i none) ++
          " <= x" ++
          to_int_str ((selectSub m.non_binary_sel m.«variables»).getD i none) ++
          " <= " ++
          to_float_str ((selectSub m.non_binary_sel m.variables_upper_bound).getD i none) ++
          "\n"
        else ("")) := by
  simp only [boundsShapeOK, Bool.and_eq_true, beq_iff_eq] at hs
  obtain ⟨⟨hl, hu⟩, hsel⟩ := hs
  have h1 : (selectSub m.non_binary_sel m.variables_lower_bound).length =
      (selectSub m.non_binary_sel m.«variables»).length :=
    selectSub_length_eq _ _ _ hl
  have h2 : (selectSub m.non_binary_sel m.variables_upper_bound).length =
      (selectSub m.non_binary_sel m.«variables»).length :=
    selectSub_length_eq _ _ _ hu
  have hblen : (bounds_str m).length =
      (selectSub m.non_binary_sel m.«variables»).length := by
    rw [bounds_str_eq]
    simp [whereMask, join_str_arrays, andMasks, notnull, neSentinel]
    omega
  refine ⟨hblen, ?_⟩
  have hiL : i < (selectSub m.non_binary_sel m.variables_lower_bound).length := by
    omega
  have hiU : i < (selectSub m.non_binary_sel m.variables_upper_bound).length := by
    omega
  rw [bounds_str_eq]
  rw [whereMask_getD _ _ i (by simp [join_str_arrays]; omega)
    (by simp [andMasks, notnull, neSentinel]; omega)]
  rw [join_str_arrays_getD _ _ i hiL]
  rw [andMasks_getD _ _ i (by simp [andMasks, notnull]; omega)
    (by simp [neSentinel]; omega)]
  rw [andMasks_getD _ _ i (by simp [notnull]; omega) (by simp [notnull]; omega)]
  rw [notnull_getD _ _ hiL, notnull_getD _ _ hiU, neSentinel_getD _ _ hi]
  simp only [List.foldl, StrArr.get]
  rw [getD_map_strD to_float_str _ i none hiL,
    getD_map_strD to_int_str _ i none hi,
    getD_map_strD to_float_str _ i none hiU]
  simp only [Bool.and_eq_true, decide_eq_true_eq]
  exact if_congr and_assoc (by rw [strEmpty_append]) rfl

/-- C10 witness: in the two-variable model whose binary variable 4 is
deselected, the single selected non-binary variable 5 with both bounds
present produces exactly its bounds line. -/
theorem C10_witness :
    boundsShapeOK boundsWitnessModel = true ∧
    0 < (selectSub boundsWitnessModel.non_binary_sel boundsWitnessModel.«variables»).length ∧
    (bounds_str boundsWitnessModel).getD 0 ("") =
      "+0.000000 <= x5 <= +2.000000\n" := by
  refine ⟨by decide, by decide, ?_⟩
  rw [(C10_bounds_iff boundsWitnessModel 0 (by decide) (by decide)).2]
  decide

theorem strStartsWith_rename_self (cat f : String) :
    strStartsWith (cat ++ "-" ++ f) (cat ++ "-") = true := by
  unfold strStartsWith
  rw [List.isPrefixOf_iff_prefix, String.data_append]
  exact List.prefix_append _ _

theorem strStartsWith_rename_ne (a cat f : String)
    (h1 : (cat ++ "-").data.isPrefixOf (a ++ "-").data = false)
    (h2 : (a ++ "-").data.isPrefixOf (cat ++ "-").data = false) :
    strStartsWith (a ++ "-" ++ f) (cat ++ "-") = false := by
  have hn1 : ¬ ((cat ++ "-").data <+: (a ++ "-").data) := by
    rw [← List.isPrefixOf_iff_prefix, h1]
    simp
  have hn2 : ¬ ((a ++ "-").data <+: (cat ++ "-").data) := by
    rw [← List.isPrefixOf_iff_prefix, h2]
    simp
  have hnot : ¬ ((cat ++ "-").data <+: ((a ++ "-") ++ f).data) := by
    intro hp
    rw [String.data_append (a ++ "-") f] at hp
    rcases List.prefix_or_prefix_of_prefix hp
      (List.prefix_append (a ++ "-").data f.data) with h | h
    · exact hn1 h
    · exact hn2 h
  unfold strStartsWith
  cases hb : (cat ++ "-").data.isPrefixOf ((a ++ "-") ++ f).data
  · rfl
  · exact absurd (List.isPrefixOf_iff_prefix.mp hb) hnot

theorem filter_rename_self {α : Type} (cat : String) (ds : List (String × α)) :
    (get_and_rename cat ds).filter (fun p => strStartsWith p.1 (cat ++ "-")) =
      get_and_rename cat ds := by
  apply List.filter_eq_self.mpr
  intro p hp
  obtain ⟨q, _, hpe⟩ := List.mem_map.mp hp
  rw [← hpe]
  exact strStartsWith_rename_self cat q.1

theorem filter_rename_ne {α : Type} (a cat : String) (ds : List (String × α))
    (h1 : (cat ++ "-").data.isPrefixOf (a ++ "-").data = false)
    (h2 : (a ++ "-").data.isPrefixOf (cat ++ "-").data = false) :
    (get_and_rename a ds).filter (fun p => strStartsWith p.1 (cat ++ "-")) = [] := by
  rw [List.filter_eq_nil_iff]
  intro p hp
  obtain ⟨q, _, hpe⟩ := List.mem_map.mp hp
  rw [← hpe]
  simp [strStartsWith_rename_ne a cat q.1 h1 h2]

theorem strip_rename {α : Type} (cat : String) (ds : List (String × α)) :
    (get_and_rename cat ds).map
      (fun p => (strDrop p.1 (cat.length + 1), p.2)) = ds := by
  unfold get_and_rename
  rw [List.map_map]
  have hcomp : ∀ p ∈ ds,
      ((fun p : String × α => (strDrop p.1 (cat.length + 1), p.2)) ∘
        (fun p : String × α => (cat ++ "-" ++ p.1, p.2))) p = p := by
    intro p _
    have hs : strDrop (cat ++ "-" ++ p.1) (cat.length + 1) = p.1 := by
      unfold strDrop
      rw [String.data_append]
      have hlen : (cat ++ "-").data.length = cat.length + 1 := by
        rw [String.data_append, List.length_append]
        rfl
      rw [← hlen, List.drop_left]
    simp [Function.comp, hs]
  rw [List.map_congr_left hcomp, List.map_id']

theorem to_netcdf_vars {α : Type} (m : NcModel α) :
    (to_netcdf m).vars =
      get_and_rename ("objective") m.objective.ds ++
      (get_and_rename ("variables") m.«variables» ++
      (get_and_rename ("constraints") m.constraints ++
      (get_and_rename ("bounds") m.bounds ++
      get_and_rename ("binaries") m.binaries))) := by
  simp [to_netcdf, array_attrs, getCat, List.foldl]

theorem selectCat_write_obj {α : Type} (m : NcModel α) :
    selectCat (to_netcdf m) ("objective") = m.objective.ds := by
  unfold selectCat
  rw [to_netcdf_vars, List.filter_append, List.filter_append,
    List.filter_append, List.filter_append]
  rw [filter_rename_self,
    filter_rename_ne ("variables") ("objective") _ (by decide) (by decide),
    filter_rename_ne ("constraints") ("objective") _ (by decide) (by decide),
    filter_rename_ne ("bounds") ("objective") _ (by decide) (by decide),
    filter_rename_ne ("binaries") ("objective") _ (by decide) (by decide)]
  simp only [List.append_nil]
  exact strip_rename _ _

theorem selectCat_write_vars {α : Type} (m : NcModel α) :
    selectCat (to_netcdf m) ("variables") = m.«variables» := by
  unfold selectCat
  rw [to_netcdf_vars, List.filter_append, List.filter_append,
    List.filter_append, List.filter_append]
  rw [filter_rename_self,
    filter_rename_ne ("objective") ("variables") _ (by decide) (by decide),
    filter_rename_ne ("constraints") ("variables") _ (by decide) (by decide),
    filter_rename_ne ("bounds") ("variables") _ (by decide) (by decide),
    filter_rename_ne ("binaries") ("variables") _ (by decide) (by decide)]
  simp only [List.nil_append, List.append_nil]
  exact strip_rename _ _

theorem selectCat_write_cons {α : Type} (m : NcModel α) :
    selectCat (to_netcdf m) ("constraints") = m.constraints := by
  unfold selectCat
  rw [to_netcdf_vars, List.filter_append, List.filter_append,
    List.filter_append, List.filter_append]
  rw [filter_rename_self,
    filter_rename_ne ("objective") ("constraints") _ (by decide) (by decide),
    filter_rename_ne ("variables") ("constraints") _ (by decide) (by decide),
    filter_rename_ne ("bounds") ("constraints") _ (by decide) (by decide),
    filter_rename_ne ("binaries") ("constraints") _ (by decide) (by decide)]
  simp only [List.nil_append, List.append_nil]
  exact strip_rename _ _

theorem selectCat_write_bounds {α : Type} (m : NcModel α) :
    selectCat (to_netcdf m) ("bounds") = m.bounds := by
  unfold selectCat
  rw [to_netcdf_vars, List.filter_append, List.filter_append,
    List.filter_append, List.filter_append]
  rw [filter_rename_self,
    filter_rename_ne ("objective") ("bounds") _ (by decide) (by decide),
    filter_rename_ne ("variables") ("bounds") _ (by decide) (by decide),
    filter_rename_ne ("constraints") ("bounds") _ (by decide) (by decide),
    filter_rename_ne ("binaries") ("bounds") _ (by decide) (by decide)]
  simp only [List.nil_append, List.append_nil]
  exact strip_rename _ _

theorem selectCat_write_bins {α : Type} (m : NcModel α) :
    selectCat (to_netcdf m) ("binaries") = m.binaries := by
  unfold selectCat
  rw [to_netcdf_vars, List.filter_append, List.filter_append,
    List.filter_append, List.filter_append]
  rw [filter_rename_self,
    filter_rename_ne ("objective") ("binaries") _ (by decide) (by decide),
    filter_rename_ne ("variables") ("binaries") _ (by decide) (by decide),
    filter_rename_ne ("constraints") ("binaries") _ (by decide) (by decide),
    filter_rename_ne ("bounds") ("binaries") _ (by decide) (by decide)]
  simp only [List.nil_append, List.append_nil]
  exact strip_rename _ _

/-- C1: the binary snapshot round-trips every model exactly —
`read_netcdf (to_netcdf m) = m` for every table field of every category
and for every scalar attribute, for arbitrary table payloads (hence in
particular for models with zero constraints, zero variables, an
objective with no valid terms, or a ragged constraint term table), and
the objective comes back as a `LinearExpression` term-table entity. -/
theorem C1_round_trip {α : Type} (m : NcModel α) :
    read_netcdf (to_netcdf m) = Except.ok m := by
  unfold read_netcdf
  rw [selectCat_write_obj m, selectCat_write_vars m, selectCat_write_cons m,
    selectCat_write_bounds m, selectCat_write_bins m]
  have hattrs : (to_netcdf m).attrs =
      [(("objective_sense"), m.objective_sense), (("name"), m.name)] := by
    simp [to_netcdf, obj_attrs, getAttr]
  rw [hattrs]
  have hp1 : popAttr [(("objective_sense"), m.objective_sense),
      (("name"), m.name)] ("objective_sense") = Except.ok m.objective_sense := rfl
  have hp2 : popAttr [(("objective_sense"), m.objective_sense),
      (("name"), m.name)] ("name") = Except.ok m.name := rfl
  rw [hp1, hp2]

/-- C4 counterexample: loading a container that is missing the whole
`variables` category (and three more categories) does not fail — it
returns a model with those categories empty, so a missing category is
not surfaced as a missing-data error. -/
theorem C4_counterexample :
    read_netcdf cexContainer4 =
      Except.ok (⟨⟨[(("coeffs"), 0)]⟩, [], [], [], [], "min", "m"⟩ :
        NcModel ℕ) := by
  rfl

/-- C4 (amended): loading fails if and only if an expected scalar
attribute key is missing, with the error identifying the first such key
and no model returned; a missing category never causes a failure — its
tables are silently reconstructed empty in the returned model. -/
theorem C4_amended {α : Type} (c : NcContainer α) :
    read_netcdf c = (match missingAttr c with
      | some k => Except.error k
      | none => Except.ok (buildNc c)) := by
  unfold read_netcdf missingAttr buildNc popAttr obj_attrs
  cases h1 : c.attrs.lookup ("objective_sense") with
  | none => simp [h1, List.find?]
  | some s =>
    cases h2 : c.attrs.lookup ("name") with
    | none => simp [h1, h2, List.find?]
    | some n => simp [h1, h2, List.find?]
